import Mathlib

/-
  Verification of the rusty-board imageboard server.

  The definitions below are a shallow embedding of the Rust sources:
    - crates/rb-plugins/rb-auth-simple/src/lib.rs   (SimpleAuthProvider)
    - crates/rb-plugins/rb-storage-local/src/lib.rs (LocalMediaStore)
    - crates/rb-plugins/rb-db-sqlite/src/lib.rs     (SqliteBoardRepo)
    - crates/rb-api/src/handlers.rs                 (create_post handler, sanitize_content)

  Conventions of the embedding:
    - Rust strings are `List Char`; raw byte buffers (`Vec<u8>`, `&[u8]`) are `List Nat`
      with each element a byte value < 256.
    - Machine words are `Nat` reduced `% 2^32` wherever 32-bit wrapping matters.
    - The filesystem is an association list from paths (lists of path components)
      to file contents; `tokio::fs::write` prepends, `Path::exists` is a lookup.
    - The SQLite database is a record of three tables, each a list of rows in
      rowid (insertion) order; a scan without ORDER BY yields insertion order,
      and an open transaction buffers its writes until COMMIT.
    - External libraries that the code drives through a narrow interface
      (the `image` crate and the `uuid` parser) are oracles passed as parameters.
-/

namespace RustyBoard

/-! ### SHA-256 (the `sha2` crate as used by both plugins), over byte lists -/

/-- 2^32, the modulus for 32-bit words. -/
def word : Nat := 4294967296

/-- 32-bit wrapping addition. -/
def add32 (a b : Nat) : Nat := (a + b) % word

/-- 32-bit right rotation. -/
def rotr32 (x n : Nat) : Nat := ((x >>> n) ||| (x <<< (32 - n))) % word

/-- 32-bit bitwise complement. -/
def not32 (x : Nat) : Nat := Nat.xor x (word - 1)

/-- SHA-256 Ch function. -/
def ch32 (x y z : Nat) : Nat := Nat.xor (Nat.land x y) (Nat.land (not32 x) z)

/-- SHA-256 Maj function. -/
def maj32 (x y z : Nat) : Nat :=
  Nat.xor (Nat.xor (Nat.land x y) (Nat.land x z)) (Nat.land y z)

/-- SHA-256 big sigma 0. -/
def bsig0 (x : Nat) : Nat := Nat.xor (Nat.xor (rotr32 x 2) (rotr32 x 13)) (rotr32 x 22)

/-- SHA-256 big sigma 1. -/
def bsig1 (x : Nat) : Nat := Nat.xor (Nat.xor (rotr32 x 6) (rotr32 x 11)) (rotr32 x 25)

/-- SHA-256 small sigma 0. -/
def ssig0 (x : Nat) : Nat := Nat.xor (Nat.xor (rotr32 x 7) (rotr32 x 18)) (x >>> 3)

/-- SHA-256 small sigma 1. -/
def ssig1 (x : Nat) : Nat := Nat.xor (Nat.xor (rotr32 x 17) (rotr32 x 19)) (x >>> 10)

/-- The 64 SHA-256 round constants (FIPS 180-4, written in decimal). -/
def sha256K : List Nat :=
  [1116352408, 1899447441, 3049323471, 3921009573, 961987163, 1508970993,
   2453635748, 2870763221, 3624381080, 310598401, 607225278, 1426881987,
   1925078388, 2162078206, 2614888103, 3248222580, 3835390401, 4022224774,
   264347078, 604807628, 770255983, 1249150122, 1555081692, 1996064986,
   2554220882, 2821834349, 2952996808, 3210313671, 3336571891, 3584528711,
   113926993, 338241895, 666307205, 773529912, 1294757372, 1396182291,
   1695183700, 1986661051, 2177026350, 2456956037, 2730485921, 2820302411,
   3259730800, 3345764771, 3516065817, 3600352804, 4094571909, 275423344,
   430227734, 506948616, 659060556, 883997877, 958139571, 1322822218,
   1537002063, 1747873779, 1955562222, 2024104815, 2227730452, 2361852424,
   2428436474, 2756734187, 3204031479, 3329325298]

/-- The eight SHA-256 initial hash values (FIPS 180-4, decimal). -/
def sha256H0 : List Nat :=
  [1779033703, 3144134277, 1013904242, 2773480762, 1359893119, 2600822924,
   528734635, 1541459225]

/-- Big-endian serialization of a 64-bit value into 8 bytes. -/
def be64 (n : Nat) : List Nat :=
  [(n >>> 56) % 256, (n >>> 48) % 256, (n >>> 40) % 256, (n >>> 32) % 256,
   (n >>> 24) % 256, (n >>> 16) % 256, (n >>> 8) % 256, n % 256]

/-- Big-endian serialization of a 32-bit word into 4 bytes. -/
def be32 (n : Nat) : List Nat :=
  [(n >>> 24) % 256, (n >>> 16) % 256, (n >>> 8) % 256, n % 256]

/-- SHA-256 message padding: append 0x80, zeros, then the 64-bit bit length,
reaching a multiple of 64 bytes. -/
def padBytes (msg : List Nat) : List Nat :=
  let len := msg.length
  let zeros := (64 + 56 - (len + 1) % 64) % 64
  msg ++ [0x80] ++ List.replicate zeros 0 ++ be64 (len * 8)

/-- Split a byte list into successive 64-byte blocks (fuel bounds the recursion
by the list length so the definition is structural and computes by reduction). -/
def chunks64Aux : Nat → List Nat → List (List Nat)
  | 0, _ => []
  | _, [] => []
  | fuel + 1, l => l.take 64 :: chunks64Aux fuel (l.drop 64)

/-- Split a byte list into successive 64-byte blocks. -/
def chunks64 (l : List Nat) : List (List Nat) := chunks64Aux l.length l

/-- Assemble big-endian 32-bit words from groups of four bytes. -/
def bytesToWords : List Nat → List Nat
  | a :: b :: c :: d :: rest =>
      (a * 16777216 + b * 65536 + c * 256 + d) :: bytesToWords rest
  | _ => []

/-- One extension step of the SHA-256 message schedule (appends word t given
words 0..t-1). -/
def extendStep (ws : List Nat) : List Nat :=
  let n := ws.length
  ws ++ [(ssig1 (ws.getD (n - 2) 0) + ws.getD (n - 7) 0 +
          ssig0 (ws.getD (n - 15) 0) + ws.getD (n - 16) 0) % word]

/-- The full 64-word message schedule of one block. -/
def msgSchedule (w16 : List Nat) : List Nat :=
  (List.range 48).foldl (fun ws _ => extendStep ws) w16

/-- The eight working registers of the compression function. -/
structure Regs where
  ra : Nat
  rb : Nat
  rc : Nat
  rd : Nat
  re : Nat
  rf : Nat
  rg : Nat
  rh : Nat
deriving DecidableEq

/-- One SHA-256 compression round. -/
def round256 (r : Regs) (kt wt : Nat) : Regs :=
  let t1 := (r.rh + bsig1 r.re + ch32 r.re r.rf r.rg + kt + wt) % word
  let t2 := (bsig0 r.ra + maj32 r.ra r.rb r.rc) % word
  ⟨(t1 + t2) % word, r.ra, r.rb, r.rc, (r.rd + t1) % word, r.re, r.rf, r.rg⟩

/-- Compress one 64-byte block into the running 8-word state. -/
def compressBlock (st : List Nat) (block : List Nat) : List Nat :=
  let ws := msgSchedule (bytesToWords block)
  let r0 : Regs := ⟨st.getD 0 0, st.getD 1 0, st.getD 2 0, st.getD 3 0,
                    st.getD 4 0, st.getD 5 0, st.getD 6 0, st.getD 7 0⟩
  let rf := (sha256K.zip ws).foldl (fun r kw => round256 r kw.1 kw.2) r0
  [add32 (st.getD 0 0) rf.ra, add32 (st.getD 1 0) rf.rb,
   add32 (st.getD 2 0) rf.rc, add32 (st.getD 3 0) rf.rd,
   add32 (st.getD 4 0) rf.re, add32 (st.getD 5 0) rf.rf,
   add32 (st.getD 6 0) rf.rg, add32 (st.getD 7 0) rf.rh]

/-- SHA-256 of a byte list: a 32-byte digest. -/
def sha256 (msg : List Nat) : List Nat :=
  (((chunks64 (padBytes msg)).foldl compressBlock sha256H0).map be32).flatten

/-- Lowercase hexadecimal digit for a value below 16. -/
def hexDigit (n : Nat) : Char :=
  if n < 10 then Char.ofNat (48 + n) else Char.ofNat (87 + n)

/-- Two lowercase hex characters of one byte. -/
def hexByte (n : Nat) : List Char := [hexDigit (n / 16), hexDigit (n % 16)]

/-- Lowercase hex encoding of a byte list (the `hex` crate / `format "x"`). -/
def hexEncode (bs : List Nat) : List Char := (bs.map hexByte).flatten

/-- The lowercase hex SHA-256 digest of a byte list, as 64 characters. -/
def sha256hex (msg : List Nat) : List Char := hexEncode (sha256 msg)

/-! ### Digest length facts -/

theorem compressBlock_length (st b : List Nat) : (compressBlock st b).length = 8 := rfl

theorem foldl_compressBlock_length (bs : List (List Nat)) :
    ∀ st : List Nat, st.length = 8 → (bs.foldl compressBlock st).length = 8 := by
  induction bs with
  | nil => intro st h; simpa using h
  | cons b rest ih =>
      intro st _
      simpa using ih (compressBlock st b) (compressBlock_length st b)

theorem flatten_map_be32_length (l : List Nat) :
    ((l.map be32).flatten).length = 4 * l.length := by
  induction l with
  | nil => simp
  | cons a rest ih => simp [be32, ih]; omega

theorem flatten_map_hexByte_length (l : List Nat) :
    ((l.map hexByte).flatten).length = 2 * l.length := by
  induction l with
  | nil => simp
  | cons a rest ih => simp [hexByte, ih]; omega

/-- The SHA-256 digest has 32 bytes. -/
theorem sha256_length (msg : List Nat) : (sha256 msg).length = 32 := by
  unfold sha256
  rw [flatten_map_be32_length,
      foldl_compressBlock_length (chunks64 (padBytes msg)) sha256H0 rfl]

/-- The hex digest has 64 characters. -/
theorem sha256hex_length (msg : List Nat) : (sha256hex msg).length = 64 := by
  unfold sha256hex hexEncode
  rw [flatten_map_hexByte_length, sha256_length]

/-! ### UTF-8 (Rust `str::as_bytes` and `std::str::from_utf8`) -/

/-- UTF-8 encoding of one Unicode scalar value. -/
def utf8EncodeChar (c : Char) : List Nat :=
  let n := c.toNat
  if n < 0x80 then [n]
  else if n < 0x800 then [0xC0 + n / 64, 0x80 + n % 64]
  else if n < 0x10000 then [0xE0 + n / 4096, 0x80 + (n / 64) % 64, 0x80 + n % 64]
  else [0xF0 + n / 262144, 0x80 + (n / 4096) % 64, 0x80 + (n / 64) % 64, 0x80 + n % 64]

/-- UTF-8 encoding of a string (Rust `str::as_bytes`). -/
def utf8Encode (s : List Char) : List Nat := (s.map utf8EncodeChar).flatten

theorem utf8Encode_append (a b : List Char) :
    utf8Encode (a ++ b) = utf8Encode a ++ utf8Encode b := by
  simp [utf8Encode]

/-- Is the byte a UTF-8 continuation byte (0x80..0xBF)? -/
def isCont (b : Nat) : Bool := decide (0x80 ≤ b) && decide (b < 0xC0)

/-- Validating UTF-8 decoder; fuel bounds the recursion by the list length.
Follows the RFC 3629 well-formedness table, as `std::str::from_utf8` does. -/
def utf8DecodeAux : Nat → List Nat → Option (List Char)
  | _, [] => some []
  | 0, _ :: _ => none
  | fuel + 1, b :: rest =>
    if b < 0x80 then
      (utf8DecodeAux fuel rest).map (fun cs => Char.ofNat b :: cs)
    else if decide (0xC2 ≤ b) && decide (b ≤ 0xDF) then
      match rest with
      | b2 :: r2 =>
        if isCont b2 then
          (utf8DecodeAux fuel r2).map (fun cs => Char.ofNat ((b - 0xC0) * 64 + (b2 - 0x80)) :: cs)
        else none
      | [] => none
    else if decide (0xE0 ≤ b) && decide (b ≤ 0xEF) then
      match rest with
      | b2 :: b3 :: r3 =>
        let lo2 := if b = 0xE0 then 0xA0 else 0x80
        let hi2 := if b = 0xED then 0x9F else 0xBF
        if decide (lo2 ≤ b2) && decide (b2 ≤ hi2) && isCont b3 then
          (utf8DecodeAux fuel r3).map (fun cs =>
            Char.ofNat ((b - 0xE0) * 4096 + (b2 - 0x80) * 64 + (b3 - 0x80)) :: cs)
        else none
      | _ => none
    else if decide (0xF0 ≤ b) && decide (b ≤ 0xF4) then
      match rest with
      | b2 :: b3 :: b4 :: r4 =>
        let lo2 := if b = 0xF0 then 0x90 else 0x80
        let hi2 := if b = 0xF4 then 0x8F else 0xBF
        if decide (lo2 ≤ b2) && decide (b2 ≤ hi2) && isCont b3 && isCont b4 then
          (utf8DecodeAux fuel r4).map (fun cs =>
            Char.ofNat ((b - 0xF0) * 262144 + (b2 - 0x80) * 4096 +
                        (b3 - 0x80) * 64 + (b4 - 0x80)) :: cs)
        else none
      | _ => none
    else none

/-- `std::str::from_utf8`: decode a byte list, `none` on invalid UTF-8. -/
def utf8Decode (l : List Nat) : Option (List Char) := utf8DecodeAux l.length l

/-! ### SimpleAuthProvider (crates/rb-plugins/rb-auth-simple/src/lib.rs) -/

/-- The incremental interface of `sha2::Sha256`: `update` appends to the
processed stream, `finalize` hashes the whole stream. -/
structure Hasher where
  buf : List Nat

/-- `Sha256::new()`. -/
def Hasher.init : Hasher := ⟨[]⟩

/-- `Hasher::update`. -/
def Hasher.update (h : Hasher) (d : List Nat) : Hasher := ⟨h.buf ++ d⟩

/-- `Hasher::finalize`. -/
def Hasher.finalizeHash (h : Hasher) : List Nat := sha256 h.buf

/-- `SimpleAuthProvider::generate_thread_id`: hash session salt, client ip and
thread id, hex-encode, keep the first 8 characters (`hash[..8]` slices 8 bytes
of the 64-character all-ASCII hex string, i.e. its first 8 characters). -/
def generate_thread_id (sessionSalt ip threadId : List Char) : List Char :=
  let h := ((Hasher.init.update (utf8Encode sessionSalt)).update
              (utf8Encode ip)).update (utf8Encode threadId)
  (hexEncode h.finalizeHash).take 8

/-- `SimpleAuthProvider::check_ban`: the shipped implementation ignores its
argument and returns `Ok(false)` (the body is a TODO stub). -/
def check_ban (_ip : List Char) : Except Unit Bool := Except.ok false

/-! ### sanitize_content (crates/rb-api/src/handlers.rs) -/

/-- `html_escape::encode_safe` on one character: escapes the five characters
ampersand, less-than, greater-than, double quote and single quote to their
entities, leaving every other character unchanged. -/
def escChar (c : Char) : List Char :=
  if c = '&' then "&amp;".toList
  else if c = '<' then "&lt;".toList
  else if c = '>' then "&gt;".toList
  else if c = Char.ofNat 34 then "&quot;".toList
  else if c = Char.ofNat 39 then "&#x27;".toList
  else [c]

/-- `html_escape::encode_safe` on a string. -/
def encode_safe (s : List Char) : List Char := (s.map escChar).flatten

/-- Split a character list at every newline; always returns at least one
(possibly empty) segment, including a final empty segment for a trailing
newline. -/
def splitOnNl : List Char → List (List Char)
  | [] => [[]]
  | c :: rest =>
    match splitOnNl rest with
    | [] => [[]]
    | seg :: segs =>
        if c = Char.ofNat 10 then [] :: seg :: segs else (c :: seg) :: segs

/-- Drop one trailing carriage return: a segment that ended at a newline had
a `\r\n` terminator when its last character is `\r`. -/
def stripCR (l : List Char) : List Char :=
  if l.getLast? = some (Char.ofNat 13) then l.dropLast else l

/-- Rust `str::lines`: lines end at `\n` or `\r\n`, the final line ending is
optional. Every segment before the last was terminated by a newline, so one
trailing carriage return is removed from it; an empty final segment comes
from a trailing newline (or the empty string) and yields no line; a nonempty
final segment is unterminated and keeps a lone trailing carriage return
(`"foo\r\nbar\n\nbaz\r"` gives `foo`, `bar`, the empty line, `baz\r`). -/
def rustLines (s : List Char) : List (List Char) :=
  let segs := splitOnNl s
  let terminated := segs.dropLast.map stripCR
  match segs.getLast? with
  | none => terminated
  | some [] => terminated
  | some lastSeg => terminated ++ [lastSeg]

/-- The per-line greentext transform of `sanitize_content`: wrap a line that
starts with the escaped greater-than sign in a span. -/
def greentextLine (line : List Char) : List Char :=
  if "&gt;".toList.isPrefixOf line then
    "<span class=\"greentext\">".toList ++ line ++ "</span>".toList
  else line

/-- `sanitize_content`: HTML-escape, split into lines, wrap greentext lines,
join with a break tag. -/
def sanitize_content (raw : List Char) : List Char :=
  List.intercalate "<br />".toList ((rustLines (encode_safe raw)).map greentextLine)

/-! ### LocalMediaStore (crates/rb-plugins/rb-storage-local/src/lib.rs)

The filesystem is an association list from paths to byte contents; a path is
the list of its components. `tokio::fs::write` prepends a binding,
`Path::exists` and `tokio::fs::read` look the path up. The `image` crate
(decode with guessed format, `thumbnail(250,250)`, WebP re-encode) is an
oracle `List Nat → Option (List Nat)`: `none` is a decode, unsupported-format
or encode failure, `some tb` the thumbnail bytes. -/

/-- A filesystem path, as its list of components. -/
abbrev FsPath := List (List Char)

/-- The filesystem: newest binding first. -/
abbrev FS := List (FsPath × List Nat)

/-- Look a path up (first binding wins). -/
def fsLookup (p : FsPath) : FS → Option (List Nat)
  | [] => none
  | (q, d) :: rest => if p = q then some d else fsLookup p rest

/-- Write a file (prepend a binding). -/
def fsWrite (p : FsPath) (d : List Nat) (fs : FS) : FS := (p, d) :: fs

/-- `LocalMediaStore::get_sharded_path`: root, first two hash characters,
next two, full hash. The hash is the 64-character ASCII hex digest, so the
byte slices `hash[0..2]` and `hash[2..4]` are its first and next two
characters. -/
def get_sharded_path (root : FsPath) (hash : List Char) : FsPath :=
  root ++ [hash.take 2, (hash.drop 2).take 2, hash]

/-- The thumbnail path built by `generate_thumbnail`: the original's parent
directory plus `thumb_<hash>.webp`. -/
def thumbFilePath (root : FsPath) (hash : List Char) : FsPath :=
  root ++ [hash.take 2, (hash.drop 2).take 2,
           "thumb_".toList ++ hash ++ ".webp".toList]

/-- `LocalMediaStore::generate_thumbnail`: read the original back, decode and
re-encode through the image oracle, write the thumbnail. Errors: missing
source file, or oracle failure. -/
def generate_thumbnail (oracle : List Nat → Option (List Nat)) (root : FsPath)
    (hash : List Char) (fs : FS) : Except Unit FS :=
  match fsLookup (get_sharded_path root hash) fs with
  | none => Except.error ()
  | some d =>
    match oracle d with
    | none => Except.error ()
    | some tb => Except.ok (fsWrite (thumbFilePath root hash) tb fs)

/-- `LocalMediaStore::save_upload`: hash the bytes, return early if the
original already exists, otherwise write the original and derive the
thumbnail; a thumbnail failure propagates out of `save_upload` (note: without
removing the just-written original). -/
def save_upload (oracle : List Nat → Option (List Nat)) (root : FsPath)
    (fs : FS) (data : List Nat) (_contentType : List Char) :
    Except Unit (List Char) × FS :=
  let hash := sha256hex data
  let target := get_sharded_path root hash
  if (fsLookup target fs).isSome then (Except.ok hash, fs)
  else
    let fs1 := fsWrite target data fs
    match generate_thumbnail oracle root hash fs1 with
    | Except.ok fs2 => (Except.ok hash, fs2)
    | Except.error _ => (Except.error (), fs1)

/-- Rust `str::is_char_boundary` on a UTF-8 byte list. -/
def charBoundary (s : List Nat) (i : Nat) : Bool :=
  i == 0 || i == s.length || (decide (i < s.length) && !isCont (s.getD i 0))

/-- Rust byte-range slicing `&s[a..b]`: `none` models the panic on an
out-of-range index or a non-boundary index. -/
def sliceBytes (s : List Nat) (a b : Nat) : Option (List Nat) :=
  if a ≤ b ∧ charBoundary s a ∧ charBoundary s b then
    some ((s.drop a).take (b - a))
  else none

/-- The byte string `"/"`. -/
def slashByte : List Nat := [47]

/-- `LocalMediaStore::get_url` over the UTF-8 bytes of `media_id`: the
sharded relative path under the URL root; `none` models the slicing panic. -/
def get_url (urlRoot : List Nat) (mediaId : List Nat) : Option (List Nat) :=
  match sliceBytes mediaId 0 2, sliceBytes mediaId 2 4 with
  | some s1, some s2 =>
      some (urlRoot ++ slashByte ++ s1 ++ slashByte ++ s2 ++ slashByte ++ mediaId)
  | _, _ => none

/-- `LocalMediaStore::get_thumbnail_url`, same layout with the
`thumb_<id>.webp` file name. -/
def get_thumbnail_url (urlRoot : List Nat) (mediaId : List Nat) : Option (List Nat) :=
  match sliceBytes mediaId 0 2, sliceBytes mediaId 2 4 with
  | some s1, some s2 =>
      some (urlRoot ++ slashByte ++ s1 ++ slashByte ++ s2 ++ slashByte ++
            utf8Encode "thumb_".toList ++ mediaId ++ utf8Encode ".webp".toList)
  | _, _ => none

/-! ### SqliteBoardRepo (crates/rb-plugins/rb-db-sqlite/src/lib.rs)

Each table is the list of its rows in rowid (insertion) order: an INSERT
appends, a scan without ORDER BY yields that order, `fetch_optional` takes
the first match. `create_thread` runs in a transaction whose writes stay
invisible until COMMIT and are dropped when an error aborts it; the fault
oracle says which statement of the transaction fails, modelling the injected
fault of the atomicity contract. -/

/-- A UUID as its 16 bytes. -/
abbrev Uuid := List Nat

/-- A row of `boards`. -/
structure BoardRow where
  id : Uuid
  slug : List Char
  title : List Char
  description : Option (List Char)
  settings : List Char
  created_at : Int
deriving DecidableEq

/-- A row of `threads`. -/
structure ThreadRow where
  id : Uuid
  board_id : Uuid
  last_bump : Int
  is_sticky : Bool
  is_locked : Bool
  metadata : List Char
deriving DecidableEq

/-- A row of `posts`. -/
structure PostRow where
  id : Uuid
  thread_id : Uuid
  user_id_in_thread : List Char
  content : List Char
  media_id : Option (List Char)
  is_op : Bool
  created_at : Int
  metadata : List Char
deriving DecidableEq

/-- The SQLite database. -/
structure DB where
  boards : List BoardRow
  threads : List ThreadRow
  posts : List PostRow
deriving DecidableEq

/-- `SELECT ... FROM boards WHERE slug = ?` with `fetch_optional`. -/
def findBoard : List BoardRow → List Char → Option BoardRow
  | [], _ => none
  | b :: rest, slug => if b.slug = slug then some b else findBoard rest slug

/-- `SELECT ... FROM threads WHERE id = ?` with `fetch_optional`. -/
def findThread : List ThreadRow → Uuid → Option ThreadRow
  | [], _ => none
  | t :: rest, tid => if t.id = tid then some t else findThread rest tid

/-- `SELECT ... FROM posts WHERE thread_id = ?` with `fetch_all` and no
ORDER BY: the matching rows in rowid order. -/
def filterPosts : List PostRow → Uuid → List PostRow
  | [], _ => []
  | p :: rest, tid =>
      if p.thread_id = tid then p :: filterPosts rest tid else filterPosts rest tid

/-- `WHERE board_id = ?` on `threads`, in rowid order. -/
def filterThreads : List ThreadRow → Uuid → List ThreadRow
  | [], _ => []
  | t :: rest, bid =>
      if t.board_id = bid then t :: filterThreads rest bid else filterThreads rest bid

/-- `SqliteBoardRepo::get_board`. -/
def get_board (slug : List Char) (db : DB) : Option BoardRow := findBoard db.boards slug

/-- `SqliteBoardRepo::get_thread`: the thread row, then the posts of the
thread in table order (the posts query has no ORDER BY clause). -/
def get_thread (tid : Uuid) (db : DB) : Option (ThreadRow × List PostRow) :=
  match findThread db.threads tid with
  | none => none
  | some t => some (t, filterPosts db.posts tid)

/-- Which statement of the `create_thread` transaction the injected fault
hits. -/
inductive TxFault
  | noFault
  | onThreadInsert
  | onPostInsert
  | onCommit
deriving DecidableEq

/-- `SqliteBoardRepo::create_thread`: BEGIN, insert the thread, insert the OP
post, COMMIT. A failing statement makes `?` drop the transaction, so the
buffered writes are rolled back and the database is left as it was. -/
def create_thread (f : TxFault) (db : DB) (t : ThreadRow) (p : PostRow) :
    Except Unit Unit × DB :=
  if f = TxFault.onThreadInsert then (Except.error (), db)
  else
    let tx1 := { db with threads := db.threads ++ [t] }
    if f = TxFault.onPostInsert then (Except.error (), db)
    else
      let tx2 := { tx1 with posts := tx1.posts ++ [p] }
      if f = TxFault.onCommit then (Except.error (), db)
      else (Except.ok (), tx2)

/-- `SqliteBoardRepo::create_post`: a single INSERT on `posts`, outside any
transaction; `fault` models an infrastructure failure of that statement. No
other table is read or written. -/
def create_post (fault : Bool) (db : DB) (p : PostRow) : Except Unit Unit × DB :=
  if fault then (Except.error (), db)
  else (Except.ok (), { db with posts := db.posts ++ [p] })

/-- `ORDER BY is_sticky DESC, last_bump DESC`: may `a` come before `b`? -/
def threadBefore (a b : ThreadRow) : Bool :=
  if a.is_sticky = b.is_sticky then decide (b.last_bump ≤ a.last_bump) else a.is_sticky

/-- Stable insertion into a sorted thread list. -/
def insThread (x : ThreadRow) : List ThreadRow → List ThreadRow
  | [] => [x]
  | y :: rest => if threadBefore x y then x :: y :: rest else y :: insThread x rest

/-- Stable sort by `(is_sticky DESC, last_bump DESC)`. -/
def sortThreads : List ThreadRow → List ThreadRow
  | [] => []
  | x :: rest => insThread x (sortThreads rest)

/-- `SqliteBoardRepo::list_threads_paginated`: filter by board, sort, OFFSET
then LIMIT (negative values clamp to zero here; SQLite treats a negative
LIMIT as unlimited, which no caller uses). -/
def list_threads_paginated (bid : Uuid) (limit offset : Int) (db : DB) :
    List ThreadRow :=
  ((sortThreads (filterThreads db.threads bid)).drop offset.toNat).take limit.toNat

/-! ### The create_post handler (crates/rb-api/src/handlers.rs)

The multipart payload is the list of its fields in arrival order, each field
a name, a content type and its byte chunks. `Uuid::parse_str` (the `uuid`
crate) is an oracle parameter; `Uuid::now_v7` and `Utc::now` become explicit
values of the environment, one per call site. -/

/-- One multipart field. -/
structure MultipartField where
  fieldName : List Char
  fieldContentType : List Char
  chunks : List (List Nat)

/-- The mutable locals of the stream-drain loop. -/
structure DrainAcc where
  content : List Char
  imageBytes : Option (List Nat)
  contentType : List Char
  threadIdForm : Option Uuid
deriving DecidableEq

/-- Process one multipart field exactly as the `while let` loop does:
`content` chunks are UTF-8 decoded (invalid chunks become the empty string)
and appended; every `thread_id` chunk is parsed, a successful parse
overwriting the previous value; `file` chunks are concatenated unboundedly
and stored only when nonempty, the field's content type taken as declared. -/
def drainField (parseUuid : List Char → Option Uuid) (acc : DrainAcc)
    (f : MultipartField) : DrainAcc :=
  if f.fieldName = "content".toList then
    { acc with content :=
        acc.content ++ (f.chunks.map (fun c => (utf8Decode c).getD [])).flatten }
  else if f.fieldName = "thread_id".toList then
    { acc with threadIdForm :=
        f.chunks.foldl (fun cur c =>
          match parseUuid ((utf8Decode c).getD []) with
          | some u => some u
          | none => cur) acc.threadIdForm }
  else if f.fieldName = "file".toList then
    let bytes := f.chunks.flatten
    { acc with
        contentType := f.fieldContentType,
        imageBytes := if bytes = [] then acc.imageBytes else some bytes }
  else acc

/-- Drain the whole multipart stream. -/
def drainFields (parseUuid : List Char → Option Uuid)
    (fields : List MultipartField) : DrainAcc :=
  fields.foldl (drainField parseUuid) ⟨[], none, [], none⟩

/-- The HTTP responses `create_post` can produce. `badRequest` (the response
a `ValidationError` would map to) is part of the type so that its absence is
expressible. -/
inductive Response
  | seeOther (location : List Char)
  | forbidden
  | notFound
  | internalError
  | badRequest
deriving DecidableEq

/-- The request as the handler sees it: client address, the `board` route
parameter when present, the multipart fields. -/
structure RequestModel where
  clientIp : List Char
  boardSlug : Option (List Char)
  fields : List MultipartField

/-- The call-site environment of one `create_post` invocation: the composed
plugins' parameters and the per-call nondeterminism (fresh UUIDv7 values,
clock readings, injected faults) made explicit. -/
structure PipelineEnv where
  sessionSalt : List Char
  storeRoot : FsPath
  thumbOracle : List Nat → Option (List Nat)
  parseUuid : List Char → Option Uuid
  freshThreadId : Uuid
  freshPostId : Uuid
  nowThreadTs : Int
  nowPostTs : Int
  txFault : TxFault
  postFault : Bool

/-- `serde_json::json!` of the empty object, i.e. the two-character string of
an opening and a closing curly brace. -/
def emptyJsonObject : List Char := [Char.ofNat 123, Char.ofNat 125]

/-- `Uuid::to_string`: lowercase hyphenated hex (8-4-4-4-12). -/
def uuidToString (u : Uuid) : List Char :=
  let h := hexEncode u
  h.take 8 ++ [Char.ofNat 45] ++ (h.drop 8).take 4 ++ [Char.ofNat 45] ++
    (h.drop 12).take 4 ++ [Char.ofNat 45] ++ (h.drop 16).take 4 ++
    [Char.ofNat 45] ++ h.drop 20

/-- The redirect target `/{board_slug}/thread/{thread_target}`. -/
def redirectLocation (slug : List Char) (target : Uuid) : List Char :=
  [Char.ofNat 47] ++ slug ++ "/thread/".toList ++ uuidToString target

/-- The `create_post` handler: drain the multipart stream, ban check, media
save, board lookup, thread selection, identity, sanitize, persist, redirect —
in the source's order, threading the filesystem and the database through. -/
def create_post_handler (env : PipelineEnv) (req : RequestModel) (fs : FS)
    (db : DB) : Response × FS × DB :=
  let acc := drainFields env.parseUuid req.fields
  match check_ban req.clientIp with
  | Except.ok true => (Response.forbidden, fs, db)
  | _ =>
    let mediaStep : Except Unit (Option (List Char)) × FS :=
      match acc.imageBytes with
      | some bytes =>
        match save_upload env.thumbOracle env.storeRoot fs bytes acc.contentType with
        | (Except.ok mid, fs2) => (Except.ok (some mid), fs2)
        | (Except.error _, fs2) => (Except.error (), fs2)
      | none => (Except.ok none, fs)
    match mediaStep with
    | (Except.error _, fs2) => (Response.internalError, fs2, db)
    | (Except.ok mediaId, fs2) =>
      let slug := req.boardSlug.getD "b".toList
      match get_board slug db with
      | none => (Response.notFound, fs2, db)
      | some board =>
        let isNewThread := acc.threadIdForm.isNone
        let threadTarget := acc.threadIdForm.getD env.freshThreadId
        let userId := generate_thread_id env.sessionSalt req.clientIp
                        (uuidToString threadTarget)
        let newPost : PostRow :=
          { id := env.freshPostId
            thread_id := threadTarget
            user_id_in_thread := userId
            content := sanitize_content acc.content
            media_id := mediaId
            is_op := isNewThread
            created_at := env.nowPostTs
            metadata := emptyJsonObject }
        if isNewThread then
          let newThread : ThreadRow :=
            { id := threadTarget
              board_id := board.id
              last_bump := env.nowThreadTs
              is_sticky := false
              is_locked := false
              metadata := emptyJsonObject }
          match create_thread env.txFault db newThread newPost with
          | (Except.ok _, db2) =>
              (Response.seeOther (redirectLocation slug threadTarget), fs2, db2)
          | (Except.error _, db2) => (Response.internalError, fs2, db2)
        else
          match create_post env.postFault db newPost with
          | (Except.ok _, db2) =>
              (Response.seeOther (redirectLocation slug threadTarget), fs2, db2)
          | (Except.error _, db2) => (Response.internalError, fs2, db2)

/-! ### Claim C7 -/

/-- Claim C7: for every session secret, client address and thread identifier,
`generate_thread_id` returns exactly the first 8 hex characters of the
SHA-256 digest of their concatenation; it is deterministic, and its output
length is 8. -/
theorem claim_C7 (s1 s2 a1 a2 t1 t2 : List Char)
    (hs : s1 = s2) (ha : a1 = a2) (ht : t1 = t2) :
    generate_thread_id s1 a1 t1 = generate_thread_id s2 a2 t2 ∧
    generate_thread_id s1 a1 t1 = (sha256hex (utf8Encode (s1 ++ a1 ++ t1))).take 8 ∧
    (generate_thread_id s1 a1 t1).length = 8 := by
  subst hs; subst ha; subst ht
  have heq : generate_thread_id s1 a1 t1
      = (sha256hex (utf8Encode (s1 ++ a1 ++ t1))).take 8 := by
    simp [generate_thread_id, Hasher.init, Hasher.update, Hasher.finalizeHash,
      sha256hex, utf8Encode_append]
  refine ⟨rfl, heq, ?_⟩
  rw [heq, List.length_take, sha256hex_length]
  rfl

theorem claim_C7_witness :
    generate_thread_id "s".toList "1.2.3.4".toList "t".toList
      = generate_thread_id "s".toList "1.2.3.4".toList "t".toList ∧
    generate_thread_id "s".toList "1.2.3.4".toList "t".toList
      = (sha256hex (utf8Encode ("s".toList ++ "1.2.3.4".toList ++ "t".toList))).take 8 ∧
    (generate_thread_id "s".toList "1.2.3.4".toList "t".toList).length = 8 :=
  claim_C7 _ _ _ _ _ _ rfl rfl rfl

/-! ### Claim C10 -/

theorem charBoundary_true_iff (s : List Nat) (i : Nat) :
    charBoundary s i = true ↔
      (i = 0 ∨ i = s.length ∨ (i < s.length ∧ isCont (s.getD i 0) = false)) := by
  simp [charBoundary]
  tauto

theorem isCont_true_iff (b : Nat) : isCont b = true ↔ (128 ≤ b ∧ b < 192) := by
  simp [isCont]

theorem charBoundary_false_iff (s : List Nat) (i : Nat) :
    charBoundary s i = false ↔
      (i ≠ 0 ∧ i ≠ s.length ∧ (s.length < i ∨ isCont (s.getD i 0) = true)) := by
  rw [← Bool.not_eq_true, charBoundary_true_iff]
  push_neg
  constructor
  · rintro ⟨h0, hl, h2⟩
    refine ⟨h0, hl, ?_⟩
    by_cases hc : i < s.length
    · exact Or.inr (by simpa using h2 hc)
    · exact Or.inl (by omega)
  · rintro ⟨h0, hl, h2⟩
    refine ⟨h0, hl, fun hc => ?_⟩
    rcases h2 with h | h
    · omega
    · simpa [List.getD] using h

/-- Claim C10: `get_url` and `get_thumbnail_url` are partial. When the id has
at least 4 bytes, its first four are ASCII, and byte offset 4 is a character
boundary (true of every string whose first four characters are ASCII, in
particular of every 64-character hex hash), both succeed and produce the
sharded layout; an id shorter than 4 bytes, or one whose byte offset 2 or 4
falls inside a character, makes the byte-range slicing panic. -/
theorem claim_C10 (urlRoot mediaId : List Nat) :
    (4 ≤ mediaId.length → (∀ i, i < 4 → mediaId.getD i 0 < 128) →
      charBoundary mediaId 4 = true →
      get_url urlRoot mediaId =
        some (urlRoot ++ slashByte ++ mediaId.take 2 ++ slashByte ++
              (mediaId.drop 2).take 2 ++ slashByte ++ mediaId) ∧
      get_thumbnail_url urlRoot mediaId =
        some (urlRoot ++ slashByte ++ mediaId.take 2 ++ slashByte ++
              (mediaId.drop 2).take 2 ++ slashByte ++
              utf8Encode "thumb_".toList ++ mediaId ++ utf8Encode ".webp".toList)) ∧
    (mediaId.length < 4 →
      get_url urlRoot mediaId = none ∧ get_thumbnail_url urlRoot mediaId = none) ∧
    (4 ≤ mediaId.length →
      (isCont (mediaId.getD 2 0) = true ∨
        (4 < mediaId.length ∧ isCont (mediaId.getD 4 0) = true)) →
      get_url urlRoot mediaId = none ∧ get_thumbnail_url urlRoot mediaId = none) := by
  refine ⟨?_, ?_, ?_⟩
  · intro hlen hascii hb4
    have hb0 : charBoundary mediaId 0 = true := by
      rw [charBoundary_true_iff]; exact Or.inl rfl
    have hb2 : charBoundary mediaId 2 = true := by
      rw [charBoundary_true_iff]
      refine Or.inr (Or.inr ⟨by omega, ?_⟩)
      have h2 : mediaId.getD 2 0 < 128 := hascii 2 (by omega)
      rw [Bool.eq_false_iff]
      intro hc
      rw [isCont_true_iff] at hc
      omega
    have hs02 : sliceBytes mediaId 0 2 = some (mediaId.take 2) := by
      simp [sliceBytes, hb0, hb2]
    have hs24 : sliceBytes mediaId 2 4 = some ((mediaId.drop 2).take 2) := by
      simp [sliceBytes, hb2, hb4]
    constructor
    · simp [get_url, hs02, hs24]
    · simp [get_thumbnail_url, hs02, hs24]
  · intro hlen
    have hb4 : charBoundary mediaId 4 = false := by
      rw [charBoundary_false_iff]
      exact ⟨by omega, by omega, Or.inl (by omega)⟩
    have hs24 : sliceBytes mediaId 2 4 = none := by
      simp [sliceBytes, hb4]
    constructor
    · unfold get_url
      rw [hs24]
      cases sliceBytes mediaId 0 2 <;> rfl
    · unfold get_thumbnail_url
      rw [hs24]
      cases sliceBytes mediaId 0 2 <;> rfl
  · intro hlen hbad
    rcases hbad with hb2cont | ⟨h4lt, hb4cont⟩
    · have hb2 : charBoundary mediaId 2 = false := by
        rw [charBoundary_false_iff]
        exact ⟨by omega, by omega, Or.inr hb2cont⟩
      have hs02 : sliceBytes mediaId 0 2 = none := by
        simp [sliceBytes, hb2]
      constructor
      · unfold get_url
        rw [hs02]
      · unfold get_thumbnail_url
        rw [hs02]
    · have hb4 : charBoundary mediaId 4 = false := by
        rw [charBoundary_false_iff]
        exact ⟨by omega, by omega, Or.inr hb4cont⟩
      have hs24 : sliceBytes mediaId 2 4 = none := by
        simp [sliceBytes, hb4]
      constructor
      · unfold get_url
        rw [hs24]
        cases sliceBytes mediaId 0 2 <;> rfl
      · unfold get_thumbnail_url
        rw [hs24]
        cases sliceBytes mediaId 0 2 <;> rfl

theorem claim_C10_witness :
    (get_url (utf8Encode "/static/uploads".toList) (utf8Encode "abcdef".toList) =
      some (utf8Encode "/static/uploads".toList ++ slashByte ++
            (utf8Encode "abcdef".toList).take 2 ++ slashByte ++
            ((utf8Encode "abcdef".toList).drop 2).take 2 ++ slashByte ++
            utf8Encode "abcdef".toList) ∧
     get_thumbnail_url (utf8Encode "/static/uploads".toList) (utf8Encode "abcdef".toList) =
      some (utf8Encode "/static/uploads".toList ++ slashByte ++
            (utf8Encode "abcdef".toList).take 2 ++ slashByte ++
            ((utf8Encode "abcdef".toList).drop 2).take 2 ++ slashByte ++
            utf8Encode "thumb_".toList ++ utf8Encode "abcdef".toList ++
            utf8Encode ".webp".toList)) ∧
    (get_url [] [97, 98] = none ∧ get_thumbnail_url [] [97, 98] = none) ∧
    (get_url [] [97, 98, 128, 99] = none ∧ get_thumbnail_url [] [97, 98, 128, 99] = none) :=
  ⟨(claim_C10 _ _).1 (by decide) (by decide) (by decide),
   (claim_C10 [] [97, 98]).2.1 (by decide),
   (claim_C10 [] [97, 98, 128, 99]).2.2 (by decide) (by decide)⟩

/-! ### Claim C3 -/

/-- Claim C3: whenever `save_upload` succeeds its result is exactly the
lowercase hex SHA-256 digest of the bytes, and a second call with identical
bytes returns the same identifier while leaving the filesystem — in
particular the stored original — completely unmodified. -/
theorem claim_C3 (oracle : List Nat → Option (List Nat)) (root : FsPath)
    (fs : FS) (data : List Nat) (ct : List Char) :
    match save_upload oracle root fs data ct with
    | (Except.ok mid, fs2) =>
        mid = sha256hex data ∧
        save_upload oracle root fs2 data ct = (Except.ok mid, fs2)
    | (Except.error _, _) => True := by
  unfold save_upload
  by_cases hex0 : (fsLookup (get_sharded_path root (sha256hex data)) fs).isSome
  · simp [hex0]
  · simp only [hex0, if_false, Bool.false_eq_true]
    unfold generate_thumbnail
    have hsrc : fsLookup (get_sharded_path root (sha256hex data))
        (fsWrite (get_sharded_path root (sha256hex data)) data fs) = some data := by
      simp [fsLookup, fsWrite]
    simp only [hsrc]
    cases horacle : oracle data with
    | none => simp [horacle]
    | some tb =>
        have hex2 : (fsLookup (get_sharded_path root (sha256hex data))
            (fsWrite (thumbFilePath root (sha256hex data)) tb
              (fsWrite (get_sharded_path root (sha256hex data)) data fs))).isSome := by
          simp only [fsLookup, fsWrite]
          split
          · simp
          · simp
        simp [horacle, hex2]

/-! ### Claim C4 -/

/-- Claim C4 is false of the code: with a failing image oracle, `save_upload`
on fresh bytes errors but the newly written original stays at its final path,
and an immediately following `save_upload` of the same bytes observes it as
already present and succeeds. -/
theorem claim_C4_counterexample :
    (save_upload (fun _ => none) [] [] [0] []).1 = Except.error () ∧
    fsLookup (get_sharded_path [] (sha256hex [0]))
        (save_upload (fun _ => none) [] [] [0] []).2 = some [0] ∧
    ¬ (fsLookup (get_sharded_path [] (sha256hex [0]))
        (save_upload (fun _ => none) [] [] [0] []).2 = none) ∧
    (save_upload (fun _ => none) [] ((save_upload (fun _ => none) [] [] [0] []).2)
        [0] []).1 = Except.ok (sha256hex [0]) := by
  have h1 : save_upload (fun _ => none) [] [] [0] [] =
      (Except.error (), fsWrite (get_sharded_path [] (sha256hex [0])) [0] []) := by
    unfold save_upload generate_thumbnail
    simp [fsLookup, fsWrite]
  rw [h1]
  refine ⟨rfl, by simp [fsLookup, fsWrite], by simp [fsLookup, fsWrite], ?_⟩
  unfold save_upload
  simp [fsLookup, fsWrite]

/-- Claim C4 amended: when the original is absent and thumbnail derivation
fails on the bytes, `save_upload` fails as a whole but leaves the original at
its final path (no rollback deletion), so a later `save_upload` of the same
bytes observes it as present, succeeds with the same hash, and never writes a
thumbnail. -/
theorem claim_C4_amended (oracle : List Nat → Option (List Nat)) (root : FsPath)
    (fs : FS) (data : List Nat) (ct : List Char)
    (habsent : fsLookup (get_sharded_path root (sha256hex data)) fs = none)
    (hfail : oracle data = none) :
    save_upload oracle root fs data ct =
      (Except.error (), fsWrite (get_sharded_path root (sha256hex data)) data fs) ∧
    save_upload oracle root
        (fsWrite (get_sharded_path root (sha256hex data)) data fs) data ct =
      (Except.ok (sha256hex data),
       fsWrite (get_sharded_path root (sha256hex data)) data fs) := by
  constructor
  · unfold save_upload generate_thumbnail
    simp [habsent, fsLookup, fsWrite, hfail]
  · unfold save_upload
    simp [fsLookup, fsWrite]

theorem claim_C4_amended_witness :
    (fsLookup (get_sharded_path [] (sha256hex [7])) [] = none) ∧
    save_upload (fun _ => none) [] [] [7] [] =
      (Except.error (), fsWrite (get_sharded_path [] (sha256hex [7])) [7] []) ∧
    save_upload (fun _ => none) []
        (fsWrite (get_sharded_path [] (sha256hex [7])) [7] []) [7] [] =
      (Except.ok (sha256hex [7]),
       fsWrite (get_sharded_path [] (sha256hex [7])) [7] []) :=
  ⟨rfl, claim_C4_amended (fun _ => none) [] [] [7] [] rfl rfl⟩

/-! ### Claim C6 -/

/-- On a string containing none of the five escaped characters, the escape
pass is the identity. -/
theorem encode_safe_of_plain (s : List Char)
    (h : ∀ c ∈ s, c ≠ '&' ∧ c ≠ '<' ∧ c ≠ '>' ∧
                  c ≠ Char.ofNat 34 ∧ c ≠ Char.ofNat 39) :
    encode_safe s = s := by
  induction s with
  | nil => rfl
  | cons c rest ih =>
      have hc := h c (List.mem_cons_self c rest)
      have hrest : encode_safe rest = rest :=
        ih (fun x hx => h x (List.mem_cons_of_mem c hx))
      simp only [encode_safe, List.map_cons, List.flatten_cons] at hrest ⊢
      rw [hrest]
      simp [escChar, hc.1, hc.2.1, hc.2.2.1, hc.2.2.2.1, hc.2.2.2.2]

/-- Splitting a newline-free string yields the single segment. -/
theorem splitOnNl_of_no_newline (s : List Char) (h : Char.ofNat 10 ∉ s) :
    splitOnNl s = [s] := by
  induction s with
  | nil => rfl
  | cons c rest ih =>
      have hc : c ≠ Char.ofNat 10 := fun hc => h (hc ▸ List.mem_cons_self c rest)
      have hrest : splitOnNl rest = [rest] :=
        ih (fun hx => h (List.mem_cons_of_mem c hx))
      simp [splitOnNl, hrest, hc]

/-- A newline-free nonempty string is its own single (unterminated) line:
`str::lines` splits nothing off and keeps it verbatim, a lone trailing
carriage return included. -/
theorem rustLines_of_no_newline (s : List Char) (hnl : Char.ofNat 10 ∉ s)
    (hne : s ≠ []) : rustLines s = [s] := by
  unfold rustLines
  rw [splitOnNl_of_no_newline s hnl]
  cases s with
  | nil => exact absurd rfl hne
  | cons c rest => rfl

/-- A string not containing the ampersand is left alone by the greentext
wrap. -/
theorem greentextLine_of_no_amp (s : List Char) (h : '&' ∉ s) :
    greentextLine s = s := by
  unfold greentextLine
  split
  case isTrue hp =>
    exfalso
    apply h
    cases s with
    | nil => simp [List.isPrefixOf] at hp
    | cons c rest =>
        simp [List.isPrefixOf] at hp
        exact hp.1 ▸ List.mem_cons_self c rest
  case isFalse => rfl

/-- Claim C6 is false of the code: `sanitize_content` is not idempotent; a
second application re-escapes the ampersands produced by the first. -/
theorem claim_C6_counterexample :
    sanitize_content (sanitize_content ['&']) ≠ sanitize_content ['&'] := by decide

/-- Claim C6 amended: `sanitize_content` is not idempotent on the character
level — a second application re-escapes the output of the first (see the
counterexample at the ampersand), so the claimed law fails in general. It
does hold on a large class of inputs: every string containing none of the
five escaped characters and no newline (carriage returns are fine) is left
unchanged by `sanitize_content` and is therefore a fixed point of it. -/
theorem claim_C6_amended (s : List Char)
    (h : ∀ c ∈ s, c ≠ '&' ∧ c ≠ '<' ∧ c ≠ '>' ∧
                  c ≠ Char.ofNat 34 ∧ c ≠ Char.ofNat 39 ∧
                  c ≠ Char.ofNat 10) :
    sanitize_content s = s ∧
    sanitize_content (sanitize_content s) = sanitize_content s := by
  have hid : sanitize_content s = s := by
    unfold sanitize_content
    rw [encode_safe_of_plain s
      (fun c hc => ⟨(h c hc).1, (h c hc).2.1, (h c hc).2.2.1,
                    (h c hc).2.2.2.1, (h c hc).2.2.2.2.1⟩)]
    by_cases hnil : s = []
    · subst hnil; rfl
    · rw [rustLines_of_no_newline s (fun hx => ((h _ hx).2.2.2.2.2 rfl)) hnil]
      simp only [List.map_cons, List.map_nil]
      rw [greentextLine_of_no_amp s (fun hx => ((h _ hx).1 rfl))]
      simp [List.intercalate]
  exact ⟨hid, by rw [hid, hid]⟩

theorem claim_C6_amended_witness :
    sanitize_content "ab\rc\r".toList = "ab\rc\r".toList ∧
    sanitize_content (sanitize_content "ab\rc\r".toList) =
      sanitize_content "ab\rc\r".toList :=
  claim_C6_amended "ab\rc\r".toList (by decide)

/-! ### Claim C5 -/

instance {e a : Type} [DecidableEq e] [DecidableEq a] : DecidableEq (Except e a) := fun x y =>
  match x, y with
  | Except.ok v, Except.ok w =>
      if h : v = w then isTrue (by rw [h]) else isFalse (by intro hc; cases hc; exact h rfl)
  | Except.error v, Except.error w =>
      if h : v = w then isTrue (by rw [h]) else isFalse (by intro hc; cases hc; exact h rfl)
  | Except.ok _, Except.error _ => isFalse (by intro hc; cases hc)
  | Except.error _, Except.ok _ => isFalse (by intro hc; cases hc)

theorem filterPosts_append (a b : List PostRow) (tid : Uuid) :
    filterPosts (a ++ b) tid = filterPosts a tid ++ filterPosts b tid := by
  induction a with
  | nil => rfl
  | cons p rest ih =>
      simp only [List.cons_append, filterPosts]
      split <;> simp [ih]

/-- Claim C5 is false of the code: a reply to an unlocked thread succeeds
without advancing the parent's `last_bump` to the post's `created_at`, and a
reply to a locked thread succeeds (no `Conflict`) and inserts its row. -/
theorem claim_C5_counterexample :
    (create_post false
        ⟨[], [⟨[1], [9], 0, false, true, []⟩, ⟨[2], [9], 0, false, false, []⟩], []⟩
        ⟨[4], [2], [], [], none, false, 5, []⟩).1 = Except.ok () ∧
    ¬ ((findThread
          (create_post false
            ⟨[], [⟨[1], [9], 0, false, true, []⟩, ⟨[2], [9], 0, false, false, []⟩], []⟩
            ⟨[4], [2], [], [], none, false, 5, []⟩).2.threads
          [2]).map ThreadRow.last_bump = some 5) ∧
    create_post false
        ⟨[], [⟨[1], [9], 0, false, true, []⟩, ⟨[2], [9], 0, false, false, []⟩], []⟩
        ⟨[3], [1], [], [], none, false, 5, []⟩ =
      (Except.ok (),
       ⟨[], [⟨[1], [9], 0, false, true, []⟩, ⟨[2], [9], 0, false, false, []⟩],
        [⟨[3], [1], [], [], none, false, 5, []⟩]⟩) := by
  refine ⟨rfl, ?_, by decide⟩
  decide

/-- Claim C5 amended: `create_post` appends the post row unconditionally when
the insert statement succeeds — it neither checks the parent thread's
`is_locked` (no `Conflict` is ever raised for a locked thread) nor touches
any thread row, so the parent's `last_bump` is left unchanged rather than
advanced to `post.created_at`. -/
theorem claim_C5_amended (db : DB) (p : PostRow) (t : ThreadRow)
    (ht : findThread db.threads p.thread_id = some t) :
    create_post false db p = (Except.ok (), { db with posts := db.posts ++ [p] }) ∧
    (create_post false db p).2.threads = db.threads ∧
    get_thread p.thread_id (create_post false db p).2 =
      some (t, filterPosts db.posts p.thread_id ++ [p]) := by
  refine ⟨rfl, rfl, ?_⟩
  simp only [create_post, if_neg (by simp : ¬ (false = true))]
  unfold get_thread
  rw [ht]
  rw [filterPosts_append]
  simp [filterPosts]

theorem claim_C5_amended_witness :
    (findThread [⟨[1], [9], 0, false, true, []⟩] [1] =
      some ⟨[1], [9], 0, false, true, []⟩) ∧
    (create_post false ⟨[], [⟨[1], [9], 0, false, true, []⟩], []⟩
        ⟨[3], [1], [], [], none, false, 5, []⟩ =
      (Except.ok (),
       { boards := ([] : List BoardRow),
         threads := [⟨[1], [9], 0, false, true, []⟩],
         posts := [] ++ [⟨[3], [1], [], [], none, false, 5, []⟩] }) ∧
     (create_post false ⟨[], [⟨[1], [9], 0, false, true, []⟩], []⟩
        ⟨[3], [1], [], [], none, false, 5, []⟩).2.threads =
       [⟨[1], [9], 0, false, true, []⟩] ∧
     get_thread [1] (create_post false ⟨[], [⟨[1], [9], 0, false, true, []⟩], []⟩
        ⟨[3], [1], [], [], none, false, 5, []⟩).2 =
      some (⟨[1], [9], 0, false, true, []⟩,
            filterPosts [] [1] ++ [⟨[3], [1], [], [], none, false, 5, []⟩])) :=
  ⟨by decide,
   claim_C5_amended ⟨[], [⟨[1], [9], 0, false, true, []⟩], []⟩
     ⟨[3], [1], [], [], none, false, 5, []⟩ ⟨[1], [9], 0, false, true, []⟩ (by decide)⟩

/-! ### Claim C8 -/

theorem filterPosts_sublist (l : List PostRow) (tid : Uuid) :
    (filterPosts l tid).Sublist l := by
  induction l with
  | nil => exact List.Sublist.refl []
  | cons p rest ih =>
      simp only [filterPosts]
      split
      · exact List.Sublist.cons₂ p ih
      · exact List.Sublist.cons p ih

theorem mem_filterPosts (l : List PostRow) (tid : Uuid) (q : PostRow)
    (hq : q ∈ filterPosts l tid) : q.thread_id = tid := by
  induction l with
  | nil => cases hq
  | cons p rest ih =>
      simp only [filterPosts] at hq
      split at hq
      · rcases List.mem_cons.mp hq with h | h
        · subst h; assumption
        · exact ih h
      · exact ih hq

/-- Lexicographic byte-order on UUIDs, the tie-break order the spec
prescribes. Modelled from the spec: "ties broken by UUIDv7 lexical order". -/
def lexLeBytes : List Nat → List Nat → Bool
  | [], _ => true
  | _ :: _, [] => false
  | a :: as, b :: bs => if a < b then true else if b < a then false else lexLeBytes as bs

/-- The order the claim prescribes for the posts of a thread. Modelled from
the spec: `created_at` ascending, ties broken by UUIDv7 lexical order. -/
def specPostLe (p q : PostRow) : Bool :=
  decide (p.created_at < q.created_at) ||
    (decide (p.created_at = q.created_at) && lexLeBytes p.id q.id)

/-- Is a post list sorted the way the claim prescribes? -/
def isChronological : List PostRow → Bool
  | [] => true
  | [_] => true
  | p :: q :: rest => specPostLe p q && isChronological (q :: rest)

/-- Claim C8 is false of the code: the posts query has no ORDER BY, so
`get_thread` returns the rows in table (insertion) order; with the later
post inserted first the result is not ordered by `created_at` ascending. -/
theorem claim_C8_counterexample :
    get_thread [1]
        ⟨[], [⟨[1], [9], 0, false, false, []⟩],
         [⟨[5], [1], [], [], none, true, 5, []⟩,
          ⟨[6], [1], [], [], none, false, 3, []⟩]⟩ =
      some (⟨[1], [9], 0, false, false, []⟩,
            [⟨[5], [1], [], [], none, true, 5, []⟩,
             ⟨[6], [1], [], [], none, false, 3, []⟩]) ∧
    isChronological
        [⟨[5], [1], [], [], none, true, 5, []⟩,
         ⟨[6], [1], [], [], none, false, 3, []⟩] = false := by decide

/-- Claim C8 amended: for every existing thread id, `get_thread` returns the
thread together with exactly the posts whose `thread_id` matches, as the
subsequence of the posts table in insertion (rowid) order — no sorting by
`created_at` or id is applied. -/
theorem claim_C8_amended (db : DB) (tid : Uuid) :
    match get_thread tid db with
    | some (t, ps) =>
        findThread db.threads tid = some t ∧
        ps = filterPosts db.posts tid ∧
        ps.Sublist db.posts ∧
        ∀ q ∈ ps, q.thread_id = tid
    | none => findThread db.threads tid = none := by
  unfold get_thread
  cases hf : findThread db.threads tid with
  | none => rfl
  | some t =>
      refine ⟨rfl, rfl, filterPosts_sublist db.posts tid, ?_⟩
      intro q hq
      exact mem_filterPosts db.posts tid q hq

/-! ### The handler's response range (shared by claims C2 and C9) -/

/-- A general fact used by two claims: with the shipped `check_ban` stub the
handler never answers `forbidden`, and no path of the handler answers
`badRequest` (there is no validation rejection at all). -/
theorem handler_never_forbidden_nor_badRequest (env : PipelineEnv)
    (req : RequestModel) (fs : FS) (db : DB) :
    (create_post_handler env req fs db).1 ≠ Response.forbidden ∧
    (create_post_handler env req fs db).1 ≠ Response.badRequest := by
  constructor <;>
  · unfold create_post_handler
    simp only [check_ban]
    split
    · simp
    · split
      · simp
      · split
        · split
          · simp
          · simp
        · split
          · simp
          · simp

/-! ### Claim C2 -/

/-- Claim C2 is right about the intended behavior but the code contradicts
it: `SimpleAuthProvider::check_ban` is a stub that ignores the ban set and
answers `Ok(false)` for every address — its own TODO comment admits the ban
lookup is unimplemented. Consequently the answer is never `true` for a banned
address such as `1.2.3.4`, and no run of the handler ever responds
`Forbidden`. -/
theorem claim_C2_bug :
    check_ban "1.2.3.4".toList = Except.ok false ∧
    (∀ ip : List Char, check_ban ip = Except.ok false) ∧
    ∀ (env : PipelineEnv) (req : RequestModel) (fs : FS) (db : DB),
      (create_post_handler env req fs db).1 ≠ Response.forbidden :=
  ⟨rfl, fun _ => rfl,
   fun env req fs db => (handler_never_forbidden_nor_badRequest env req fs db).1⟩

/-! ### Claim C9 -/

/-- `save_upload` on absent bytes with a failing thumbnail derivation: the
whole call errors, leaving the freshly written original behind. -/
theorem save_upload_error_of_fail (oracle : List Nat → Option (List Nat))
    (root : FsPath) (fs : FS) (data : List Nat) (ct : List Char)
    (habsent : fsLookup (get_sharded_path root (sha256hex data)) fs = none)
    (hfail : oracle data = none) :
    save_upload oracle root fs data ct =
      (Except.error (), fsWrite (get_sharded_path root (sha256hex data)) data fs) := by
  unfold save_upload generate_thumbnail
  simp [habsent, fsLookup, fsWrite, hfail]

/-- Draining a single nonempty `file` field buffers its bytes whole. -/
theorem drain_single_file (pu : List Char → Option Uuid) (ct : List Char)
    (bytes : List Nat) (hnz : bytes ≠ []) :
    drainFields pu [⟨"file".toList, ct, [bytes]⟩] = ⟨[], some bytes, ct, none⟩ := by
  unfold drainFields
  simp only [List.foldl_cons, List.foldl_nil]
  unfold drainField
  rw [show (⟨"file".toList, ct, [bytes]⟩ : MultipartField).fieldName
        = "file".toList from rfl,
      if_neg (by decide), if_neg (by decide), if_pos rfl]
  simp [hnz]

/-- If the drained submission carries file bytes and the media save fails,
the handler answers 500 with the database untouched. -/
theorem handler_internalError_of_drain_and_save (env : PipelineEnv)
    (req : RequestModel) (fs : FS) (db : DB) (bytes : List Nat)
    (ct2 : List Char) (fs2 : FS)
    (hdrain : drainFields env.parseUuid req.fields = ⟨[], some bytes, ct2, none⟩)
    (hsave : save_upload env.thumbOracle env.storeRoot fs bytes ct2 =
      (Except.error (), fs2)) :
    create_post_handler env req fs db = (Response.internalError, fs2, db) := by
  unfold create_post_handler
  simp only [check_ban, hdrain, hsave]

/-- Claim C9 is false of the code: the drain loop has no size accounting. A
single `file` field of 8 MiB + 1 byte is buffered whole into memory, and the
submission is not rejected with a validation error — with an empty store and
a failing thumbnail oracle it proceeds all the way to the media step and
answers 500, not 400. -/
theorem claim_C9_counterexample :
    8 * 1024 * 1024 < (List.replicate 8388609 (0 : Nat)).length ∧
    (drainFields (fun _ => none)
        [⟨"file".toList, "image/png".toList, [List.replicate 8388609 0]⟩]).imageBytes
      = some (List.replicate 8388609 0) ∧
    (create_post_handler
        ⟨[], [], fun _ => none, fun _ => none, [], [], 0, 0, TxFault.noFault, false⟩
        ⟨"1.2.3.4".toList, some "b".toList,
         [⟨"file".toList, "image/png".toList, [List.replicate 8388609 0]⟩]⟩
        [] ⟨[], [], []⟩).1 = Response.internalError := by
  have hnz : List.replicate 8388609 (0 : Nat) ≠ [] := by
    intro h
    have h2 := congrArg List.length h
    rw [List.length_replicate, List.length_nil] at h2
    exact absurd h2 (by omega)
  have hdrain := drain_single_file (fun _ => none) "image/png".toList
    (List.replicate 8388609 0) hnz
  refine ⟨by rw [List.length_replicate]; omega, by rw [hdrain], ?_⟩
  have h := handler_internalError_of_drain_and_save
    ⟨[], [], fun _ => none, fun _ => none, [], [], 0, 0, TxFault.noFault, false⟩
    ⟨"1.2.3.4".toList, some "b".toList,
     [⟨"file".toList, "image/png".toList, [List.replicate 8388609 0]⟩]⟩
    [] ⟨[], [], []⟩ (List.replicate 8388609 0) "image/png".toList _
    hdrain
    (save_upload_error_of_fail (fun _ => none) [] []
      (List.replicate 8388609 0) "image/png".toList rfl rfl)
  rw [h]

/-- Claim C9 amended: no maximum upload size is enforced anywhere in the
pipeline. The drain loop buffers the concatenation of all `file` chunks into
memory whatever their total size, and the handler has no `ValidationError`
(400) outcome at all. -/
theorem claim_C9_amended (env : PipelineEnv) (req : RequestModel) (fs : FS)
    (db : DB) (pu : List Char → Option Uuid) (ct : List Char) (bytes : List Nat)
    (hnz : bytes ≠ []) :
    (create_post_handler env req fs db).1 ≠ Response.badRequest ∧
    (drainFields pu [⟨"file".toList, ct, [bytes]⟩]).imageBytes = some bytes := by
  refine ⟨(handler_never_forbidden_nor_badRequest env req fs db).2, ?_⟩
  rw [drain_single_file pu ct bytes hnz]

theorem claim_C9_amended_witness :
    ((create_post_handler
        ⟨[], [], fun _ => none, fun _ => none, [], [], 0, 0, TxFault.noFault, false⟩
        ⟨[], none, []⟩ [] ⟨[], [], []⟩).1 ≠ Response.badRequest ∧
     (drainFields (fun _ => none)
        [⟨"file".toList, [], [[1]]⟩]).imageBytes = some [1]) :=
  claim_C9_amended _ _ _ _ _ [] [1] (by decide)

/-! ### Claim C1 -/

theorem findThread_append (a b : List ThreadRow) (tid : Uuid) :
    findThread (a ++ b) tid =
      match findThread a tid with
      | some t => some t
      | none => findThread b tid := by
  induction a with
  | nil => rfl
  | cons t rest ih =>
      simp only [List.cons_append, findThread]
      split <;> simp [ih]

theorem findThread_eq_none_iff (l : List ThreadRow) (tid : Uuid) :
    findThread l tid = none ↔ ∀ x ∈ l, x.id ≠ tid := by
  induction l with
  | nil => simp [findThread]
  | cons t rest ih =>
      simp only [findThread]
      split
      case isTrue h => simp [h]
      case isFalse h =>
        rw [ih]
        constructor
        · intro ha x hx
          rcases List.mem_cons.mp hx with rfl | hx2
          · exact h
          · exact ha x hx2
        · intro ha x hx
          exact ha x (List.mem_cons_of_mem t hx)

theorem mem_insThread (x y : ThreadRow) (l : List ThreadRow) :
    x ∈ insThread y l ↔ x = y ∨ x ∈ l := by
  induction l with
  | nil => simp [insThread]
  | cons z rest ih =>
      simp only [insThread]
      split
      · simp
      · rw [List.mem_cons, List.mem_cons, ih]
        tauto

theorem mem_sortThreads (x : ThreadRow) (l : List ThreadRow) :
    x ∈ sortThreads l ↔ x ∈ l := by
  induction l with
  | nil => simp [sortThreads]
  | cons y rest ih =>
      simp only [sortThreads]
      rw [mem_insThread, ih, List.mem_cons]

theorem length_insThread (x : ThreadRow) (l : List ThreadRow) :
    (insThread x l).length = l.length + 1 := by
  induction l with
  | nil => rfl
  | cons y rest ih =>
      simp only [insThread]
      split
      · simp
      · simp [ih]

theorem length_sortThreads (l : List ThreadRow) :
    (sortThreads l).length = l.length := by
  induction l with
  | nil => rfl
  | cons y rest ih => simp [sortThreads, length_insThread, ih]

theorem length_filterThreads_le (l : List ThreadRow) (bid : Uuid) :
    (filterThreads l bid).length ≤ l.length := by
  induction l with
  | nil => simp [filterThreads]
  | cons t rest ih =>
      simp only [filterThreads]
      split
      · simpa using ih
      · simp
        omega

theorem mem_filterThreads (x : ThreadRow) (l : List ThreadRow) (bid : Uuid) :
    x ∈ filterThreads l bid ↔ x ∈ l ∧ x.board_id = bid := by
  induction l with
  | nil => simp [filterThreads]
  | cons t rest ih =>
      simp only [filterThreads]
      split
      case isTrue h =>
        rw [List.mem_cons, List.mem_cons, ih]
        constructor
        · rintro (rfl | ⟨hx, hb⟩)
          · exact ⟨Or.inl rfl, h⟩
          · exact ⟨Or.inr hx, hb⟩
        · rintro ⟨rfl | hx, hb⟩
          · exact Or.inl rfl
          · exact Or.inr ⟨hx, hb⟩
      case isFalse h =>
        rw [ih, List.mem_cons]
        constructor
        · rintro ⟨hx, hb⟩
          exact ⟨Or.inr hx, hb⟩
        · rintro ⟨rfl | hx, hb⟩
          · exact absurd hb h
          · exact ⟨hx, hb⟩

/-- Claim C1: `create_thread` is atomic. On success both the thread row and
the OP post row are visible to `get_thread` and `list_threads_paginated`; on
any failure of the transaction — including the post insert failing after the
thread insert succeeded — the database is exactly as before, so neither row
is visible to either read. -/
theorem claim_C1 (f : TxFault) (db : DB) (t : ThreadRow) (p : PostRow)
    (hthread : findThread db.threads t.id = none)
    (hposts : filterPosts db.posts t.id = [])
    (hp : p.thread_id = t.id) :
    match create_thread f db t p with
    | (Except.ok _, db2) =>
        get_thread t.id db2 = some (t, [p]) ∧
        t ∈ list_threads_paginated t.board_id (db2.threads.length : Int) 0 db2
    | (Except.error _, db2) =>
        db2 = db ∧
        get_thread t.id db2 = none ∧
        ∀ limit offset : Int, t ∉ list_threads_paginated t.board_id limit offset db2 := by
  have habsent : ∀ limit offset : Int,
      t ∉ list_threads_paginated t.board_id limit offset db := by
    intro limit offset hmem
    unfold list_threads_paginated at hmem
    have h1 := List.mem_of_mem_drop (List.mem_of_mem_take hmem)
    rw [mem_sortThreads, mem_filterThreads] at h1
    exact (findThread_eq_none_iff db.threads t.id).mp hthread t h1.1 rfl
  have herr : get_thread t.id db = none := by
    unfold get_thread
    rw [hthread]
  cases f with
  | noFault =>
      have hok : create_thread TxFault.noFault db t p =
          (Except.ok (),
           { db with threads := db.threads ++ [t], posts := db.posts ++ [p] }) := rfl
      rw [hok]
      have h1 : findThread (db.threads ++ [t]) t.id = some t := by
        rw [findThread_append, hthread]
        simp [findThread]
      have h2 : filterPosts (db.posts ++ [p]) t.id = [p] := by
        rw [filterPosts_append, hposts]
        simp [filterPosts, hp]
      constructor
      · unfold get_thread
        dsimp only
        rw [h1, h2]
      · unfold list_threads_paginated
        dsimp only
        have hmem : t ∈ sortThreads
            (filterThreads (db.threads ++ [t]) t.board_id) := by
          rw [mem_sortThreads, mem_filterThreads]
          exact ⟨List.mem_append_right db.threads (List.mem_cons_self t []), rfl⟩
        have hlen : (sortThreads
            (filterThreads (db.threads ++ [t]) t.board_id)).length ≤
            (db.threads ++ [t]).length := by
          rw [length_sortThreads]
          exact length_filterThreads_le (db.threads ++ [t]) t.board_id
        simp only [Int.toNat_natCast, Int.toNat_zero, List.drop_zero]
        rw [List.take_of_length_le hlen]
        exact hmem
  | onThreadInsert =>
      have h : create_thread TxFault.onThreadInsert db t p = (Except.error (), db) := rfl
      rw [h]
      exact ⟨rfl, herr, habsent⟩
  | onPostInsert =>
      have h : create_thread TxFault.onPostInsert db t p = (Except.error (), db) := rfl
      rw [h]
      exact ⟨rfl, herr, habsent⟩
  | onCommit =>
      have h : create_thread TxFault.onCommit db t p = (Except.error (), db) := rfl
      rw [h]
      exact ⟨rfl, herr, habsent⟩

theorem claim_C1_witness :
    (match create_thread TxFault.noFault ⟨[], [], []⟩
        ⟨[1], [9], 0, false, false, []⟩
        ⟨[2], [1], [], [], none, true, 0, []⟩ with
    | (Except.ok _, db2) =>
        get_thread [1] db2 =
          some (⟨[1], [9], 0, false, false, []⟩,
                [⟨[2], [1], [], [], none, true, 0, []⟩]) ∧
        (⟨[1], [9], 0, false, false, []⟩ : ThreadRow) ∈
          list_threads_paginated [9] (db2.threads.length : Int) 0 db2
    | (Except.error _, db2) =>
        db2 = ⟨[], [], []⟩ ∧
        get_thread [1] db2 = none ∧
        ∀ limit offset : Int,
          (⟨[1], [9], 0, false, false, []⟩ : ThreadRow) ∉
            list_threads_paginated [9] limit offset db2) :=
  claim_C1 TxFault.noFault ⟨[], [], []⟩ ⟨[1], [9], 0, false, false, []⟩
    ⟨[2], [1], [], [], none, true, 0, []⟩ rfl rfl rfl

end RustyBoard
